import Mathlib

/-!
Verification of the price-extraction pipeline of `src/price_monitor.py`
(repository `zalando-price-monitor`).

The development shallowly embeds the parts of `ZalandoPriceBot` that the
specification talks about:

* the numeric normalization of raw price text (`get_price`, lines 225-238),
  modelled over `List Char` with exact rational arithmetic (`mkRat`,
  `Rat.div` are definitionally equal to the field operations on `ℚ`);
* the ordered selector fallback chains for product name and price
  (`get_price`, lines 169-223), over an abstract document model;
* the retry/backoff bookkeeping (`_handle_retry`, lines 108-120 and the
  reset on success at line 241);
* the orchestration and error handling of `get_price` (lines 122-249),
  driven by an oracle list of fetch outcomes, with the `try/except`
  boundary modelled by an `Except` error type that is caught at the end.
-/

/-! ## Text utilities -/

/-- Whether `pre` is a prefix of `l` (character lists). -/
def listStartsWith : List Char → List Char → Bool
  | _, [] => true
  | [], _ :: _ => false
  | c :: cs, d :: ds => c == d && listStartsWith cs ds

/-- Whether `needle` occurs as a contiguous substring of the second list.
Models the Python `in` operator on strings. -/
def containsSeq (needle : List Char) : List Char → Bool
  | [] => listStartsWith [] needle
  | c :: rest => listStartsWith (c :: rest) needle || containsSeq needle rest

/-- Python `str.strip()`: drop leading and trailing whitespace. -/
def trimChars (l : List Char) : List Char :=
  ((l.dropWhile Char.isWhitespace).reverse.dropWhile Char.isWhitespace).reverse

/-- Model of Python's `str.isdigit` on a representative character table:
the decimal digits `0`-`9` (Unicode category Nd, which `float` also
accepts), plus the Latin-1 superscripts `¹`, `²`, `³` standing for the
characters with Unicode property Numeric_Type=Digit that `str.isdigit`
accepts but `float` rejects.  The decisive point for the proofs below is
that `str.isdigit` is strictly wider than the set of characters `float`
can parse. -/
def pyIsDigit (c : Char) : Bool :=
  c.isDigit || c == '¹' || c == '²' || c == '³'

theorem isDigit_pyIsDigit (c : Char) (h : c.isDigit = true) :
    pyIsDigit c = true := by
  rw [pyIsDigit, h]
  rfl

/-! ## Numeric normalization (`get_price`, lines 225-238)

```python
price_text = ''.join(c for c in price_text if c.isdigit() or c in '.,')
price_text = price_text.replace(',', '.')
if price_text.count('.') > 1:
    parts = price_text.split('.')
    price_text = ''.join(parts[:-1]) + '.' + parts[-1]
price = float(price_text)
if price > 1000 and '.' not in price_text:
    price = price / 100
```
-/

/-- Step (1): keep only digits (in the `str.isdigit` sense), `.` and `,`. -/
def cleanChars (l : List Char) : List Char :=
  l.filter (fun c => pyIsDigit c || c == '.' || c == ',')

/-- Step (2): replace every `,` with `.`. -/
def commaToDot (l : List Char) : List Char :=
  l.map (fun c => if c == ',' then '.' else c)

/-- Python `split('.')` on a character list. Always returns a nonempty
list of dot-free segments. -/
def splitOnDot : List Char → List (List Char)
  | [] => [[]]
  | c :: rest =>
    if c = '.' then [] :: splitOnDot rest
    else
      match splitOnDot rest with
      | [] => [[c]]
      | p :: ps => (c :: p) :: ps

/-- Step (3): if more than one `.` remains, join all segments but the
last without separators and append `.` plus the last segment
(`''.join(parts[:-1]) + '.' + parts[-1]`). -/
def collapseDots (l : List Char) : List Char :=
  if 1 < l.count '.' then
    ((splitOnDot l).dropLast).flatten ++ '.' :: (splitOnDot l).getLastD []
  else l

/-- Characters before the (first) dot. -/
def intPart (l : List Char) : List Char :=
  l.takeWhile (fun c => !(c == '.'))

/-- Characters after the (first) dot. -/
def fracPart (l : List Char) : List Char :=
  (l.dropWhile (fun c => !(c == '.'))).drop 1

/-- Decimal value of a digit string. -/
def digitsToNat (l : List Char) : ℕ :=
  l.foldl (fun a c => a * 10 + (c.toNat - 48)) 0

/-- Whether `float(text)` succeeds on the strings reachable at line 234.
`float` parses only decimal digits and at most one dot, and needs at least
one digit; it raises `ValueError` on an empty string, a lone `"."`, or any
non-decimal digit character (such as `²`) that the `str.isdigit`-based
cleanup of line 227 lets through. -/
def isParseable (l : List Char) : Bool :=
  l.all (fun c => c.isDigit || c == '.') && decide (l.count '.' ≤ 1) &&
    l.any Char.isDigit

/-- Step (4): `float(price_text)`, as an exact rational.  On the digit
strings reachable here the float literal value is
`intpart * 10^k + fracpart` over `10^k`. -/
def parseDec (l : List Char) : Option ℚ :=
  if isParseable l then
    some (mkRat (digitsToNat (intPart l) * 10 ^ (fracPart l).length +
      digitsToNat (fracPart l)) (10 ^ (fracPart l).length))
  else none

/-- Division by 100 (the code's `price / 100`), in a kernel-computable
form: `divBy100_eq` below proves it equal to division in the field `ℚ`. -/
def divBy100 (q : ℚ) : ℚ :=
  mkRat q.num (q.den * 100)

/-- The whole normalization pipeline of lines 227-238, including step (5):
divide by 100 when the parsed value exceeds 1000 and the final cleaned
text contains no `.`. -/
def normalizeChars (l : List Char) : Option ℚ :=
  let cleaned := cleanChars l
  let replaced := commaToDot cleaned
  let collapsed := collapseDots replaced
  match parseDec collapsed with
  | none => none
  | some q => some (if 1000 < q ∧ ¬('.' ∈ collapsed) then divBy100 q else q)

/-- Modelled from the spec: §4.4 numeric normalization, steps (1)-(5) as
worded there, with the step (5) guard read on the cleaned-up text (the
text after the character strip of step (1) and the comma replacement of
step (2)).  Second definition for the refinement comparison of C1. -/
def specNormalize (l : List Char) : Option ℚ :=
  let stripped := l.filter (fun c => pyIsDigit c || c == '.' || c == ',')
  let replaced := stripped.map (fun c => if c == ',' then '.' else c)
  let collapsed := collapseDots replaced
  match parseDec collapsed with
  | none => none
  | some q => some (if 1000 < q ∧ ¬('.' ∈ replaced) then divBy100 q else q)

/-- Dividing with `divBy100` is division by 100 in the field `ℚ`. -/
theorem divBy100_eq (q : ℚ) : divBy100 q = q / 100 := by
  rw [divBy100, Rat.mkRat_eq_div]
  push_cast
  rw [← div_div, Rat.num_div_den]

/-! ## Document model and selector chains (`get_price`, lines 162-225)

An element of the parsed document carries its tag, its attributes and its
(recursive) text.  A `class` attribute with several classes is modelled as
one `("class", c)` entry per class, matching BeautifulSoup's per-class
matching.  A document is its element list in document order. -/

structure Element where
  tag : String
  attrs : List (String × String)
  text : String

/-- A structural selector: a tag together with required attribute pairs,
as in the `(tag, attrs)` tuples of `name_selectors`/`price_selectors`. -/
abbrev Sel := String × List (String × String)

/-- Membership test of `soup.find_all(tag, attrs)` for one element. -/
def selMatches (e : Element) (s : Sel) : Bool :=
  e.tag == s.1 && s.2.all (fun kv => e.attrs.contains kv)

/-- Line 209: the candidate predicate for a price element — its text
contains the currency symbol and at least one digit. -/
def priceOk (e : Element) : Bool :=
  e.text.data.contains '€' && e.text.data.any pyIsDigit

/-- The ordered price selector list of lines 197-203. -/
def priceSelectors : List Sel :=
  [("span", [("data-testid", "product-price")]),
   ("span", [("class", "sDq_FX")]),
   ("span", [("class", "VfpFfd")]),
   ("span", [("class", "QPDz2E")]),
   ("p", [("data-testid", "price")])]

/-- The two semantic (`data-testid`) price selectors of the chain. -/
def semanticPriceSels : List Sel :=
  [("span", [("data-testid", "product-price")]),
   ("p", [("data-testid", "price")])]

/-- The three legacy class-name price selectors of the chain. -/
def legacyPriceSels : List Sel :=
  [("span", [("class", "sDq_FX")]),
   ("span", [("class", "VfpFfd")]),
   ("span", [("class", "QPDz2E")])]

/-- Lines 207-211: all matches of one selector in document order, then the
first match satisfying the candidate predicate. -/
def findBySel (doc : List Element) (s : Sel) : Option Element :=
  (doc.filter (fun e => selMatches e s)).find? priceOk

/-- Lines 206-213: walk the selector chain, stopping at the first selector
that yields a candidate. -/
def findChain (doc : List Element) : List Sel → Option Element
  | [] => none
  | s :: rest =>
    match findBySel doc s with
    | some e => some e
    | none => findChain doc rest

/-- Lines 216-220: fallback scan of all `span`/`p`/`div` elements. -/
def priceFallback (doc : List Element) : Option Element :=
  (doc.filter (fun e => e.tag == "span" || e.tag == "p" || e.tag == "div")).find?
    priceOk

/-- Full price-element resolution of lines 197-223. -/
def findPriceElement (doc : List Element) : Option Element :=
  match findChain doc priceSelectors with
  | some e => some e
  | none => priceFallback doc

/-- The ordered name selector list of lines 169-176. -/
def nameSelectors : List Sel :=
  [("span", [("data-testid", "product-name")]),
   ("h1", [("data-testid", "product-name")]),
   ("span", [("class", "EKabf7")]),
   ("h1", [("class", "OEhtt9")]),
   ("h1", [("class", "FZrqF6")]),
   ("div", [("data-testid", "product-name")])]

/-- Lines 178-182: `soup.find` over the name chain (first match, no
text predicate). -/
def findNameChain (doc : List Element) : List Sel → Option Element
  | [] => none
  | s :: rest =>
    match doc.find? (fun e => selMatches e s) with
    | some e => some e
    | none => findNameChain doc rest

/-- Lines 184-189: fallback: first heading whose trimmed text is longer
than 10 characters. -/
def nameFallback (doc : List Element) : Option Element :=
  (doc.filter (fun e => e.tag == "h1" || e.tag == "h2")).find?
    (fun e => decide (10 < (trimChars e.text.data).length))

/-- Full name-element resolution of lines 169-192. -/
def findNameElement (doc : List Element) : Option Element :=
  match findNameChain doc nameSelectors with
  | some e => some e
  | none => nameFallback doc

/-! ## Retry bookkeeping (`_handle_retry`, lines 108-120) -/

/-- Per-URL consecutive-failure counters; absent URLs count 0 (the code
inserts `0` on first access). -/
abbrev RetryMap := String → ℕ

/-- Model of `_handle_retry`: increment the counter, compute the capped exponential
backoff sleep, and reset/give up once the counter has reached 3.  Returns
(retry?, new counters, sleep seconds). -/
def handleRetry (st : RetryMap) (url : String) : Bool × RetryMap × ℕ :=
  let c := st url + 1
  let delay := min 300 (30 * 2 ^ (c - 1))
  if 3 ≤ c then (false, fun v => if v = url then 0 else st v, delay)
  else (true, fun v => if v = url then c else st v, delay)

/-- Line 241: `self.retry_count[url] = 0` on a successful extraction. -/
def resetRetry (st : RetryMap) (url : String) : RetryMap :=
  fun v => if v = url then 0 else st v

/-- The two operations that ever touch a URL's counter. -/
inductive RetryOp where
  | retryOp (url : String)
  | successOp (url : String)

/-- One counter-map transition. -/
def retryStep (st : RetryMap) : RetryOp → RetryMap
  | RetryOp.retryOp u => (handleRetry st u).2.1
  | RetryOp.successOp u => resetRetry st u

/-- The counter map after a sequence of operations, starting from the
empty dictionary of `__init__`. -/
def runRetry (ops : List RetryOp) : RetryMap :=
  ops.foldl retryStep (fun _ => 0)

/-! ## Orchestration (`get_price`, lines 122-249)

The network is abstracted by an oracle list of fetch outcomes, one per
attempt on the product page (the warm-up fetch of lines 127-135 has its
failures tolerated and its response discarded, so it does not appear).
Each `raise` of the Python body becomes an `Except.error`; the
`try/except` of lines 123/246-249 becomes the catch in `resolvePrice`. -/

/-- A raw fetched document: the response text together with its parse. -/
structure RawDoc where
  raw : String
  elems : List Element

/-- Outcome of one attempt to GET the product page. -/
inductive FetchResult where
  | netError
  | response (status : ℕ) (doc : RawDoc)

/-- The failure classification of the body of `get_price`. -/
inductive ExtractErr where
  | network
  | maxRetries
  | httpError (status : ℕ)
  | botChallenge
  | nameNotFound
  | priceNotFound
  | invalidNumber
deriving DecidableEq

/-- Lines 168-244: extract name and price from a fetched document. -/
def extractDoc (d : RawDoc) : Except ExtractErr (ℚ × String) :=
  match findNameElement d.elems with
  | none => Except.error ExtractErr.nameNotFound
  | some ne =>
    match findPriceElement d.elems with
    | none => Except.error ExtractErr.priceNotFound
    | some pe =>
      match normalizeChars (trimChars pe.text.data) with
      | none => Except.error ExtractErr.invalidNumber
      | some q => Except.ok (q, String.mk (trimChars ne.text.data))

/-- The body of `get_price` (inside the `try`), over the attempt oracle.
Returns the result or error, the retry counters afterwards, and the
number of product-page fetches performed. -/
def getPriceBody : List FetchResult → RetryMap → String →
    Except ExtractErr (ℚ × String) × RetryMap × ℕ
  | [], st, _ => (Except.error ExtractErr.network, st, 0)
  | FetchResult.netError :: _, st, _ => (Except.error ExtractErr.network, st, 1)
  | FetchResult.response status doc :: rest, st, url =>
    if status == 403 then
      let hr := handleRetry st url
      if hr.1 then
        let r := getPriceBody rest hr.2.1 url
        (r.1, r.2.1, r.2.2 + 1)
      else (Except.error ExtractErr.maxRetries, hr.2.1, 1)
    else if 400 ≤ status then (Except.error (ExtractErr.httpError status), st, 1)
    else if containsSeq (("captcha").data) (doc.raw.data.map Char.toLower) then
      (Except.error ExtractErr.botChallenge, st, 1)
    else
      match extractDoc doc with
      | Except.error e => (Except.error e, st, 1)
      | Except.ok pn => (Except.ok pn, resetRetry st url, 1)

/-- Model of `get_price` as seen by callers: the `except` clause of lines 246-249
converts every raised failure into `(None, None)`. -/
def resolvePrice (outs : List FetchResult) (st : RetryMap) (url : String) :
    Option (ℚ × String) × RetryMap × ℕ :=
  match getPriceBody outs st url with
  | (Except.ok pn, st2, a) => (some pn, st2, a)
  | (Except.error _, st2, a) => (none, st2, a)

/-! ## Structure of `splitOnDot` and `collapseDots` -/

theorem splitOnDot_ne_nil (l : List Char) : splitOnDot l ≠ [] := by
  cases l with
  | nil => simp [splitOnDot]
  | cons c rest =>
    simp only [splitOnDot]
    split
    · simp
    · split
      · simp
      · simp

theorem flatten_splitOnDot (l : List Char) :
    (splitOnDot l).flatten = l.filter (fun c => !(c == '.')) := by
  induction l with
  | nil => simp [splitOnDot]
  | cons c rest ih =>
    by_cases hc : c = '.'
    · subst hc
      simp only [splitOnDot, eq_self_iff_true, if_true, List.flatten_cons,
        List.nil_append, ih]
      rw [List.filter_cons_of_neg (by simp)]
    · simp only [splitOnDot, if_neg hc]
      cases hsp : splitOnDot rest with
      | nil => exact absurd hsp (splitOnDot_ne_nil rest)
      | cons p ps =>
        rw [hsp] at ih
        rw [List.filter_cons_of_pos (by simp [hc])]
        simp only [List.flatten_cons] at ih ⊢
        rw [List.cons_append, ih]

theorem flatten_dropLast_getLastD :
    ∀ ps : List (List Char), ps ≠ [] →
      ps.dropLast.flatten ++ ps.getLastD [] = ps.flatten
  | [p], _ => by simp
  | p :: q :: ps, _ => by
    have ih := flatten_dropLast_getLastD (q :: ps) (by simp)
    simp only [List.dropLast_cons₂, List.flatten_cons, List.getLastD_eq_getLast?,
      List.getLast?_cons_cons] at ih ⊢
    rw [List.append_assoc, ih]

/-- In the collapsing branch, the collapsed text is exactly the dot-free
part of the input with a single dot inserted before the last segment. -/
theorem collapseDots_parts (l : List Char) (h : 1 < l.count '.') :
    collapseDots l =
      ((splitOnDot l).dropLast).flatten ++ '.' :: (splitOnDot l).getLastD [] := by
  rw [collapseDots, if_pos h]

theorem dropLast_getLastD_filter (l : List Char) :
    ((splitOnDot l).dropLast).flatten ++ (splitOnDot l).getLastD [] =
      l.filter (fun c => !(c == '.')) := by
  rw [flatten_dropLast_getLastD (splitOnDot l) (splitOnDot_ne_nil l),
    flatten_splitOnDot]

theorem dot_not_mem_filter (l : List Char) :
    '.' ∉ l.filter (fun c => !(c == '.')) := by
  intro hmem
  have := (List.mem_filter.mp hmem).2
  simp at this

theorem count_dot_collapseDots (l : List Char) :
    (collapseDots l).count '.' ≤ 1 := by
  by_cases h : 1 < l.count '.'
  · rw [collapseDots_parts l h]
    have hsplit := dropLast_getLastD_filter l
    have hnd := dot_not_mem_filter l
    rw [← hsplit] at hnd
    rw [List.mem_append] at hnd
    push_neg at hnd
    have h1 : (((splitOnDot l).dropLast).flatten).count '.' = 0 :=
      List.count_eq_zero.mpr hnd.1
    have h2 : ((splitOnDot l).getLastD []).count '.' = 0 :=
      List.count_eq_zero.mpr hnd.2
    rw [List.count_append, h1, List.count_cons_self, h2]
  · rw [collapseDots, if_neg h]
    omega

theorem mem_collapseDots (l : List Char) (c : Char) (h : c ∈ collapseDots l) :
    c = '.' ∨ c ∈ l := by
  by_cases hgt : 1 < l.count '.'
  · rw [collapseDots_parts l hgt] at h
    rcases List.mem_append.mp h with h1 | h2
    · right
      have : c ∈ ((splitOnDot l).dropLast).flatten ++ (splitOnDot l).getLastD [] :=
        List.mem_append.mpr (Or.inl h1)
      rw [dropLast_getLastD_filter] at this
      exact List.mem_of_mem_filter this
    · rcases List.mem_cons.mp h2 with h2 | h2
      · exact Or.inl h2
      · right
        have : c ∈ ((splitOnDot l).dropLast).flatten ++ (splitOnDot l).getLastD [] :=
          List.mem_append.mpr (Or.inr h2)
        rw [dropLast_getLastD_filter] at this
        exact List.mem_of_mem_filter this
  · rw [collapseDots, if_neg hgt] at h
    exact Or.inr h

theorem mem_collapseDots_of (l : List Char) (c : Char) (hc : ¬(c = '.'))
    (h : c ∈ l) : c ∈ collapseDots l := by
  by_cases hgt : 1 < l.count '.'
  · rw [collapseDots_parts l hgt]
    have hf : c ∈ l.filter (fun x => !(x == '.')) :=
      List.mem_filter.mpr ⟨h, by simp [hc]⟩
    rw [← dropLast_getLastD_filter] at hf
    rcases List.mem_append.mp hf with h1 | h2
    · exact List.mem_append.mpr (Or.inl h1)
    · exact List.mem_append.mpr (Or.inr (List.mem_cons.mpr (Or.inr h2)))
  · rw [collapseDots, if_neg hgt]
    exact h

theorem dot_mem_collapseDots (l : List Char) :
    '.' ∈ collapseDots l ↔ '.' ∈ l := by
  by_cases hgt : 1 < l.count '.'
  · constructor
    · intro _
      exact List.count_pos_iff.mp (by omega)
    · intro _
      rw [collapseDots_parts l hgt]
      exact List.mem_append.mpr (Or.inr (List.mem_cons.mpr (Or.inl rfl)))
  · rw [collapseDots, if_neg hgt]

/-! ## Claims about numeric normalization -/

/-- C1: for every raw price text, the code's numeric normalization equals
the spec's five-step pipeline: strip non-numeric characters, replace `,`
by `.`, collapse all dots but the last, parse as a decimal, and divide by
100 exactly when the value exceeds 1000 and the cleaned (stripped and
comma-replaced) text contained no `.` at all. -/
theorem normalize_follows_spec_steps (l : List Char) :
    specNormalize l = normalizeChars l := by
  simp only [specNormalize, normalizeChars, cleanChars, commaToDot]
  cases hp : parseDec (collapseDots ((l.filter
      (fun c => pyIsDigit c || c == '.' || c == ',')).map
      (fun c => if c == ',' then '.' else c))) with
  | none => rfl
  | some q =>
    exact congrArg some (if_congr (and_congr_right fun _ =>
      not_congr (dot_mem_collapseDots _).symm) rfl rfl)

/-- C2: normalization of the boundary strings: `"38,99"` gives 38.99,
`"1.234,56"` gives 1234.56, `"123500"` gives 1235.00, and `"45.00"` gives
45.00 unchanged (it has a decimal point, so it is not treated as minor
units). -/
theorem normalize_boundary_values :
    normalizeChars (("38,99").data) = some (38.99 : ℚ) ∧
    normalizeChars (("1.234,56").data) = some (1234.56 : ℚ) ∧
    normalizeChars (("123500").data) = some (1235.00 : ℚ) ∧
    normalizeChars (("45.00").data) = some (45.00 : ℚ) := by
  have h1 : normalizeChars (("38,99").data) = some (mkRat 3899 100) := by decide
  have h2 : normalizeChars (("1.234,56").data) = some (mkRat 123456 100) := by
    decide
  have h3 : normalizeChars (("123500").data) = some (mkRat 1235 1) := by decide
  have h4 : normalizeChars (("45.00").data) = some (mkRat 45 1) := by decide
  rw [h1, h2, h3, h4]
  norm_num [Rat.mkRat_eq_div, Option.some_inj]

theorem natDiv_pow_den (n k : ℕ) (hk : k ≤ 2) :
    (100 * ((n : ℚ) / (10 : ℚ) ^ k)).den = 1 := by
  have h10 : ((10 : ℚ)) ^ k ≠ 0 := pow_ne_zero _ (by norm_num)
  have key : (100 : ℚ) * ((n : ℚ) / 10 ^ k) = ((n * 10 ^ (2 - k) : ℕ) : ℚ) := by
    push_cast
    rw [mul_comm (100 : ℚ), div_mul_eq_mul_div, div_eq_iff h10, mul_assoc,
      ← pow_add, Nat.sub_add_cancel hk]
    norm_num
  rw [key, Rat.den_natCast]

/-- C3 (counterexample): the candidate text `"€0.125"` passes the selection
predicate (it has the currency symbol and digits) and parses successfully,
but the returned price 1/8 = 0.125 has three fractional digits, so not
every successfully parsed price has at most 2 fractional digits. -/
theorem normalize_three_frac_digits :
    normalizeChars (("€0.125").data) = some (mkRat 1 8) ∧
      (100 * mkRat 1 8).den ≠ 1 := by
  refine ⟨by decide, ?_⟩
  have h : (100 : ℚ) * mkRat 1 8 = mkRat 25 2 := by
    norm_num [Rat.mkRat_eq_div]
  rw [h]
  decide

/-- C3 (amended): every successfully parsed price is non-negative, and it
has at most 2 fractional digits (100·q is an integer) provided the cleaned
text's fractional part — the digits after the decimal point once commas
are replaced and extra dots collapsed — has at most 2 digits. -/
theorem normalize_nonneg_two_frac (l : List Char) (q : ℚ)
    (h : normalizeChars l = some q) :
    0 ≤ q ∧ ((fracPart (collapseDots (commaToDot (cleanChars l)))).length ≤ 2 →
      (100 * q).den = 1) := by
  simp only [normalizeChars] at h
  set t := collapseDots (commaToDot (cleanChars l)) with ht
  cases hp : parseDec t with
  | none => rw [hp] at h; exact absurd h (by simp)
  | some q0 =>
    rw [hp] at h
    have hq : q = if 1000 < q0 ∧ ¬('.' ∈ t) then divBy100 q0 else q0 :=
      (Option.some_inj.mp h).symm
    have hq0 : q0 = mkRat (digitsToNat (intPart t) * 10 ^ (fracPart t).length +
        digitsToNat (fracPart t)) (10 ^ (fracPart t).length) := by
      by_cases hip : isParseable t
      · rw [parseDec, if_pos hip] at hp
        exact (Option.some_inj.mp hp).symm
      · rw [parseDec, if_neg hip] at hp
        exact absurd hp (by simp)
    have hval : q0 = ((digitsToNat (intPart t) * 10 ^ (fracPart t).length +
        digitsToNat (fracPart t) : ℕ) : ℚ) / (10 : ℚ) ^ (fracPart t).length := by
      rw [hq0, Rat.mkRat_eq_div]
      push_cast
      ring
    have h0 : 0 ≤ q0 := by
      rw [hval]
      positivity
    constructor
    · rw [hq]
      split
      · rw [divBy100_eq]
        exact div_nonneg h0 (by norm_num)
      · exact h0
    · intro hk
      rw [hq]
      by_cases hcond : 1000 < q0 ∧ ¬('.' ∈ t)
      · rw [if_pos hcond, divBy100_eq]
        have h100 : (100 : ℚ) * (q0 / 100) = q0 := by field_simp
        rw [h100]
        have hfp : fracPart t = [] := by
          rw [fracPart]
          have hdw : t.dropWhile (fun c => !(c == '.')) = [] := by
            refine List.dropWhile_eq_nil_iff.mpr (fun x hx => ?_)
            simp only [Bool.not_eq_eq_eq_not, Bool.not_true, beq_eq_false_iff_ne,
              ne_eq]
            intro hxe
            exact hcond.2 (hxe ▸ hx)
          rw [hdw]
          rfl
        rw [hval, hfp]
        norm_num [digitsToNat, Rat.den_natCast]
      · rw [if_neg hcond, hval]
        exact natDiv_pow_den _ _ hk

/-- Witness for `normalize_nonneg_two_frac` at the concrete text
`"38,99"`, whose fractional part has 2 digits. -/
theorem normalize_nonneg_two_frac_witness :
    0 ≤ mkRat 3899 100 ∧ (100 * mkRat 3899 100).den = 1 := by
  have h := normalize_nonneg_two_frac (("38,99").data) (mkRat 3899 100)
    (by decide)
  exact ⟨h.1, h.2 (by decide)⟩

/-- A valid already-normalized decimal string: digits with exactly one
decimal point and at least one digit (the canonical rendering `"38.99"`). -/
def isNormalizedDec (l : List Char) : Bool :=
  decide (l.count '.' = 1) && l.all (fun c => c.isDigit || c == '.') &&
    l.any Char.isDigit

/-- C4: the normalization pipeline is idempotent on valid already-normalized
decimal strings: every cleanup step leaves such a string unchanged and the
minor-units division never fires (the string has a decimal point), so the
pipeline returns exactly the string's decimal value. -/
theorem normalize_idempotent_on_normalized (l : List Char)
    (h : isNormalizedDec l = true) :
    normalizeChars l = parseDec l ∧ (parseDec l).isSome = true := by
  simp only [isNormalizedDec, Bool.and_eq_true, decide_eq_true_eq,
    List.all_eq_true, List.any_eq_true] at h
  obtain ⟨⟨hcount, hall⟩, hany⟩ := h
  have hclean : cleanChars l = l := by
    rw [cleanChars]
    refine List.filter_eq_self.mpr (fun c hc => ?_)
    have hx := hall c hc
    rw [Bool.or_eq_true] at hx
    rw [Bool.or_eq_true, Bool.or_eq_true]
    rcases hx with h1 | h2
    · exact Or.inl (Or.inl (isDigit_pyIsDigit c h1))
    · exact Or.inl (Or.inr h2)
  have hncomma : ∀ c ∈ l, ¬(c = ',') := by
    intro c hc he
    have hx := hall c hc
    rw [he] at hx
    simp at hx
  have hcomma : commaToDot l = l := by
    rw [commaToDot]
    have hmap : ∀ c ∈ l, (if c == ',' then '.' else c) = c := by
      intro c hc
      have hb : (c == ',') = false := by
        rw [beq_eq_false_iff_ne]
        exact hncomma c hc
      simp [hb]
    rw [List.map_congr_left hmap]
    simp
  have hcollapse : collapseDots l = l := by
    rw [collapseDots, if_neg]
    simp [hcount]
  have hip : isParseable l = true := by
    rw [isParseable]
    simp only [Bool.and_eq_true, List.all_eq_true, decide_eq_true_eq,
      List.any_eq_true]
    exact ⟨⟨hall, by omega⟩, hany⟩
  have hdot : '.' ∈ l := List.count_pos_iff.mp (by omega)
  constructor
  · simp only [normalizeChars]
    rw [hclean, hcomma, hcollapse]
    cases hp : parseDec l with
    | none => rfl
    | some v =>
      have hcd : ¬(1000 < v ∧ ¬('.' ∈ l)) := fun hcd => hcd.2 hdot
      show some (if 1000 < v ∧ ¬('.' ∈ l) then divBy100 v else v) = some v
      rw [if_neg hcd]
  · rw [parseDec, if_pos hip]
    rfl

/-- Witness for `normalize_idempotent_on_normalized` at `"38.99"`:
normalizing the already-normalized string yields its own value 38.99. -/
theorem normalize_idempotent_witness :
    normalizeChars (("38.99").data) = parseDec (("38.99").data) ∧
      parseDec (("38.99").data) = some (mkRat 3899 100) :=
  ⟨(normalize_idempotent_on_normalized (("38.99").data) (by decide)).1,
    by decide⟩

/-! ## Parse success under the candidate predicate -/

theorem digit_mem_dropWhile (p : Char → Bool) (l : List Char) (c : Char)
    (hc : p c = false) (h : c ∈ l) : c ∈ l.dropWhile p := by
  induction l with
  | nil => cases h
  | cons d rest ih =>
    by_cases hd : p d = true
    · rw [List.dropWhile_cons, if_pos hd]
      rcases List.mem_cons.mp h with he | hm
      · rw [he] at hc
        rw [hd] at hc
        cases hc
      · exact ih hm
    · rw [List.dropWhile_cons, if_neg hd]
      exact h

theorem digit_not_ws (c : Char) (h : c.isDigit = true) :
    c.isWhitespace = false := by
  cases hw : c.isWhitespace
  · rfl
  · exfalso
    simp only [Char.isWhitespace, Bool.or_eq_true, decide_eq_true_eq] at hw
    rcases hw with ((h1 | h1) | h1) | h1 <;>
      (rw [h1] at h; exact absurd h (by decide))

theorem mem_trimChars (l : List Char) (c : Char) (hc : c.isDigit = true)
    (h : c ∈ l) : c ∈ trimChars l := by
  rw [trimChars, List.mem_reverse]
  apply digit_mem_dropWhile _ _ _ (digit_not_ws c hc)
  rw [List.mem_reverse]
  exact digit_mem_dropWhile _ _ _ (digit_not_ws c hc) h

theorem mem_of_mem_trimChars (l : List Char) (c : Char)
    (h : c ∈ trimChars l) : c ∈ l := by
  rw [trimChars, List.mem_reverse] at h
  have h1 := (List.dropWhile_sublist _).subset h
  rw [List.mem_reverse] at h1
  exact (List.dropWhile_sublist _).subset h1

theorem replaced_chars (l : List Char)
    (hnd : ∀ c ∈ l, pyIsDigit c = true → c.isDigit = true) (c : Char)
    (h : c ∈ commaToDot (cleanChars l)) : (c.isDigit || c == '.') = true := by
  rw [commaToDot] at h
  rcases List.mem_map.mp h with ⟨c0, hc0, he⟩
  rw [cleanChars] at hc0
  have hcl := (List.mem_filter.mp hc0).2
  have hc0l := (List.mem_filter.mp hc0).1
  by_cases hb : (c0 == ',') = true
  · rw [← he, if_pos hb]
    simp
  · rw [← he, if_neg hb]
    rw [Bool.or_eq_true] at hcl
    rcases hcl with h1 | h2
    · rw [Bool.or_eq_true] at h1
      rw [Bool.or_eq_true]
      rcases h1 with h1a | h1b
      · exact Or.inl (hnd c0 hc0l h1a)
      · exact Or.inr h1b
    · exact absurd h2 hb

theorem digit_mem_replaced (l : List Char) (d : Char) (hd : d.isDigit = true)
    (h : d ∈ l) : d ∈ commaToDot (cleanChars l) := by
  have h1 : d ∈ cleanChars l := by
    rw [cleanChars]
    refine List.mem_filter.mpr ⟨h, ?_⟩
    rw [Bool.or_eq_true]
    exact Or.inl (by rw [Bool.or_eq_true]; exact Or.inl (isDigit_pyIsDigit d hd))
  rw [commaToDot]
  refine List.mem_map.mpr ⟨d, h1, ?_⟩
  have hb : (d == ',') = false := by
    rw [beq_eq_false_iff_ne]
    intro he
    rw [he] at hd
    exact absurd hd (by decide)
  simp [hb]

theorem normalize_isSome_of_digit (l : List Char)
    (h : l.any Char.isDigit = true)
    (hnd : ∀ c ∈ l, pyIsDigit c = true → c.isDigit = true) :
    (normalizeChars l).isSome = true := by
  obtain ⟨d, hdl, hd⟩ := List.any_eq_true.mp h
  have hdr : d ∈ commaToDot (cleanChars l) := digit_mem_replaced l d hd hdl
  have hdd : ¬(d = '.') := by
    intro he
    rw [he] at hd
    exact absurd hd (by decide)
  have hdt : d ∈ collapseDots (commaToDot (cleanChars l)) :=
    mem_collapseDots_of _ d hdd hdr
  have hip : isParseable (collapseDots (commaToDot (cleanChars l))) = true := by
    rw [isParseable]
    simp only [Bool.and_eq_true, List.all_eq_true, decide_eq_true_eq,
      List.any_eq_true]
    refine ⟨⟨?_, count_dot_collapseDots _⟩, ⟨d, hdt, hd⟩⟩
    intro c hc
    rcases mem_collapseDots _ c hc with he | hm
    · rw [he]
      simp
    · exact replaced_chars l hnd c hm
  simp only [normalizeChars]
  rw [parseDec, if_pos hip]
  rfl

/-- C9 (counterexample): the claim fails on the code because the selection
predicate uses Python `str.isdigit`, which accepts non-decimal digit
characters that `float` rejects.  A document whose price element text is
`"€²"` passes name and price selection, yet the parse at line 234 fails,
so `resolvePrice` reaches the `InvalidNumber` branch; and even a candidate
containing a decimal digit fails once such a character survives cleanup
(`"€2²"` cleans to `"2²"` and `float` raises). -/
theorem invalid_number_reachable :
    extractDoc ⟨("page"),
      [⟨("span"), [(("data-testid"), ("product-name"))], ("Some Product Name")⟩,
       ⟨("span"), [(("data-testid"), ("product-price"))], ("€²")⟩]⟩ =
      Except.error ExtractErr.invalidNumber ∧
    normalizeChars (("€2²").data) = none := by
  constructor
  · rfl
  · decide

/-- C9 (amended): for every candidate text that contains at least one
decimal digit and in which every `str.isdigit`-accepted character is a
decimal digit, the decimal parse cannot fail: after stripping, comma
replacement, and dot collapsing, the text is decimal digits with at most
one dot and still contains that digit, so `float` succeeds both on the
stripped (`.strip()`) and on the raw candidate text, and the
`InvalidNumber` branch is unreachable under that precondition. -/
theorem parse_succeeds_with_digit (l : List Char)
    (h : l.any Char.isDigit = true)
    (hnd : ∀ c ∈ l, pyIsDigit c = true → c.isDigit = true) :
    (normalizeChars (trimChars l)).isSome = true ∧
      (normalizeChars l).isSome = true := by
  obtain ⟨d, hdl, hd⟩ := List.any_eq_true.mp h
  refine ⟨normalize_isSome_of_digit _ ?_ ?_, normalize_isSome_of_digit _ h hnd⟩
  · exact List.any_eq_true.mpr ⟨d, mem_trimChars l d hd hdl, hd⟩
  · exact fun c hc hpd => hnd c (mem_of_mem_trimChars l c hc) hpd

/-- Witness for `parse_succeeds_with_digit` at the candidate text
`" 38,99 €"`, all of whose digit characters are decimal. -/
theorem parse_succeeds_with_digit_witness :
    (normalizeChars (trimChars ((" 38,99 €").data))).isSome = true :=
  (parse_succeeds_with_digit ((" 38,99 €").data) (by decide) (by decide)).1

/-! ## Retry bookkeeping claims -/

theorem getPriceBody_ok_resets :
    ∀ (outs : List FetchResult) (st : RetryMap) (url : String) (p : ℚ)
      (nm : String) (st2 : RetryMap) (a : ℕ),
      getPriceBody outs st url = (Except.ok (p, nm), st2, a) → st2 url = 0 := by
  intro outs
  induction outs with
  | nil =>
    intro st url p nm st2 a h
    simp only [getPriceBody, Prod.mk.injEq] at h
    exact absurd h.1 (by simp)
  | cons o rest ih =>
    intro st url p nm st2 a h
    cases o with
    | netError =>
      simp only [getPriceBody, Prod.mk.injEq] at h
      exact absurd h.1 (by simp)
    | response status doc =>
      simp only [getPriceBody] at h
      by_cases h403 : (status == 403) = true
      · rw [if_pos h403] at h
        by_cases hretry : (handleRetry st url).1 = true
        · rw [if_pos hretry] at h
          rcases hgp : getPriceBody rest (handleRetry st url).2.1 url with ⟨r, stx, ax⟩
          rw [hgp] at h
          simp only [Prod.mk.injEq] at h
          rw [← h.2.1]
          exact ih _ url p nm stx ax (by rw [hgp, h.1])
        · rw [if_neg hretry] at h
          simp only [Prod.mk.injEq] at h
          exact absurd h.1 (by simp)
      · rw [if_neg h403] at h
        by_cases h400 : 400 ≤ status
        · rw [if_pos h400] at h
          simp only [Prod.mk.injEq] at h
          exact absurd h.1 (by simp)
        · rw [if_neg h400] at h
          by_cases hcap :
              containsSeq (("captcha").data) (doc.raw.data.map Char.toLower) = true
          · rw [if_pos hcap] at h
            simp only [Prod.mk.injEq] at h
            exact absurd h.1 (by simp)
          · rw [if_neg hcap] at h
            cases hex : extractDoc doc with
            | error e =>
              rw [hex] at h
              simp only [Prod.mk.injEq] at h
              exact absurd h.1 (by simp)
            | ok pn =>
              rw [hex] at h
              simp only [Prod.mk.injEq] at h
              rw [← h.2.1, resetRetry]
              simp

/-- C5: the retry gate contract.  Each call increments the URL's counter,
computes (sleeps) `min 300 (30·2^(counter-1))` seconds, and returns false
after resetting the counter to 0 exactly when the incremented counter
reaches 3, otherwise returns true; other URLs' counters are untouched.
Consequently three consecutive calls for a URL return true, true, false
with sleeps 30, 60, 120 and leave the counter at 0, and any successful
extraction resets the URL's counter to 0 immediately. -/
theorem handleRetry_contract (st : RetryMap) (url : String) (h : st url ≤ 2) :
    (handleRetry st url).2.2 = min 300 (30 * 2 ^ st url) ∧
    ((handleRetry st url).1 = false ↔ st url + 1 = 3) ∧
    ((handleRetry st url).1 = false → (handleRetry st url).2.1 url = 0) ∧
    ((handleRetry st url).1 = true → (handleRetry st url).2.1 url = st url + 1) ∧
    (∀ v, ¬(v = url) → (handleRetry st url).2.1 v = st v) ∧
    (handleRetry (fun _ => 0) url).1 = true ∧
    (handleRetry (fun _ => 0) url).2.1 url = 1 ∧
    (handleRetry (fun _ => 0) url).2.2 = 30 ∧
    (handleRetry ((handleRetry (fun _ => 0) url).2.1) url).1 = true ∧
    (handleRetry ((handleRetry (fun _ => 0) url).2.1) url).2.1 url = 2 ∧
    (handleRetry ((handleRetry (fun _ => 0) url).2.1) url).2.2 = 60 ∧
    (handleRetry ((handleRetry ((handleRetry (fun _ => 0) url).2.1) url).2.1)
      url).1 = false ∧
    (handleRetry ((handleRetry ((handleRetry (fun _ => 0) url).2.1) url).2.1)
      url).2.1 url = 0 ∧
    (handleRetry ((handleRetry ((handleRetry (fun _ => 0) url).2.1) url).2.1)
      url).2.2 = 120 ∧
    resetRetry st url url = 0 ∧
    (∀ outs p nm st2 a,
      getPriceBody outs st url = (Except.ok (p, nm), st2, a) → st2 url = 0) := by
  refine ⟨?_, ?_, ?_, ?_, ?_, ?_, ?_, ?_, ?_, ?_, ?_, ?_, ?_, ?_, ?_, ?_⟩
  · simp only [handleRetry]
    split <;> simp
  · simp only [handleRetry]
    by_cases h3 : 3 ≤ st url + 1
    · rw [if_pos h3]
      exact ⟨fun _ => by omega, fun _ => rfl⟩
    · rw [if_neg h3]
      exact ⟨fun hf => absurd hf (by simp), fun he => absurd he (by omega)⟩
  · simp only [handleRetry]
    by_cases h3 : 3 ≤ st url + 1
    · rw [if_pos h3]
      intro _
      simp
    · rw [if_neg h3]
      intro hf
      exact absurd hf (by simp)
  · simp only [handleRetry]
    by_cases h3 : 3 ≤ st url + 1
    · rw [if_pos h3]
      intro hf
      exact absurd hf (by simp)
    · rw [if_neg h3]
      intro _
      simp
  · intro v hv
    simp only [handleRetry]
    split <;> simp [hv]
  · simp [handleRetry]
  · simp [handleRetry]
  · simp [handleRetry]
  · simp [handleRetry]
  · simp [handleRetry]
  · simp [handleRetry]
  · simp [handleRetry]
  · simp [handleRetry]
  · simp [handleRetry]
  · simp [resetRetry]
  · intro outs p nm st2 a hgp
    exact getPriceBody_ok_resets outs st url p nm st2 a hgp

/-- Witness for `handleRetry_contract`: the first call on a fresh URL
returns true with the counter at 1. -/
theorem handleRetry_contract_witness :
    (handleRetry (fun _ => 0) ("u")).1 = true ∧
      (handleRetry (fun _ => 0) ("u")).2.1 ("u") = 1 := by
  have h := handleRetry_contract (fun _ => 0) ("u") (by decide)
  exact ⟨h.2.2.2.2.2.1, h.2.2.2.2.2.2.1⟩

theorem retryStep_bounded (st : RetryMap) (op : RetryOp) (h : ∀ u, st u ≤ 2) :
    ∀ v, retryStep st op v ≤ 2 := by
  intro v
  cases op with
  | retryOp u0 =>
    simp only [retryStep, handleRetry]
    split
    · show (if v = u0 then 0 else st v) ≤ 2
      by_cases hv : v = u0
      · rw [if_pos hv]
        omega
      · rw [if_neg hv]
        exact h v
    · rename_i h3
      show (if v = u0 then st u0 + 1 else st v) ≤ 2
      by_cases hv : v = u0
      · rw [if_pos hv]
        omega
      · rw [if_neg hv]
        exact h v
  | successOp u0 =>
    simp only [retryStep, resetRetry]
    by_cases hv : v = u0
    · rw [if_pos hv]
      omega
    · rw [if_neg hv]
      exact h v

theorem retry_counter_bounded_foldl :
    ∀ (ops : List RetryOp) (st : RetryMap), (∀ u, st u ≤ 2) →
      ∀ u, (ops.foldl retryStep st) u ≤ 2
  | [], _, h, u => h u
  | op :: rest, st, h, u => by
    rw [List.foldl_cons]
    exact retry_counter_bounded_foldl rest _ (retryStep_bounded st op h) u

/-- C10: after any sequence of retry-gate calls and success resets starting
from the empty counter dictionary, every URL's stored counter is at most 2
(it only transiently reaches 3 inside a call, and is reset to 0 before the
call returns false). -/
theorem retry_counter_bounded (ops : List RetryOp) (u : String) :
    runRetry ops u ≤ 2 := by
  rw [runRetry]
  exact retry_counter_bounded_foldl ops _ (fun _ => by omega) u

/-! ## Orchestrator claims -/

/-- C6: `resolvePrice` never propagates a failure past its boundary: its
result is an absence (`none`) exactly when the body raised some failure,
so every failure of fetching, classification or extraction is caught and
converted into a no-result signal. -/
theorem resolvePrice_failure_absence (outs : List FetchResult) (st : RetryMap)
    (url : String) :
    (resolvePrice outs st url).1 = none ↔
      ∃ e, (getPriceBody outs st url).1 = Except.error e := by
  rcases hgp : getPriceBody outs st url with ⟨r, st2, a⟩
  cases r with
  | ok pn => simp [resolvePrice, hgp]
  | error e =>
    simp [resolvePrice, hgp]

/-- C7: a fetched document with a successful non-403 status whose text
contains the CAPTCHA marker makes `resolvePrice` return no result after
exactly one fetch attempt, leaving the retry counters untouched (the
retry/backoff path is never entered), via the `BotChallenge` failure. -/
theorem resolvePrice_captcha_single (rest : List FetchResult) (st : RetryMap)
    (url : String) (status : ℕ) (doc : RawDoc)
    (h403 : ¬(status = 403)) (h400 : status < 400)
    (hcap : containsSeq (("captcha").data) (doc.raw.data.map Char.toLower) = true) :
    resolvePrice (FetchResult.response status doc :: rest) st url =
        (none, st, 1) ∧
      (getPriceBody (FetchResult.response status doc :: rest) st url).1 =
        Except.error ExtractErr.botChallenge := by
  have hbody : getPriceBody (FetchResult.response status doc :: rest) st url =
      (Except.error ExtractErr.botChallenge, st, 1) := by
    simp only [getPriceBody]
    rw [if_neg (by simp [h403]), if_neg (by omega), if_pos hcap]
  constructor
  · simp [resolvePrice, hbody]
  · rw [hbody]

/-- Witness for `resolvePrice_captcha_single`: a 200 response whose body is
the CAPTCHA marker yields no result in one attempt with counters intact. -/
theorem resolvePrice_captcha_witness :
    resolvePrice [FetchResult.response 200 ⟨("captcha"), []⟩] (fun _ => 0)
      ("u") = (none, (fun _ => (0 : ℕ)), 1) :=
  (resolvePrice_captcha_single [] (fun _ => 0) ("u") 200 ⟨("captcha"), []⟩
    (by decide) (by decide) (by decide)).1

/-! ## Selector fallback chain -/

theorem findChain_yields :
    ∀ (sels : List Sel) (doc : List Element),
      (∃ s ∈ sels, ∃ e ∈ doc, selMatches e s = true ∧ priceOk e = true) →
      ∃ e, findChain doc sels = some e ∧ e ∈ doc ∧ priceOk e = true ∧
        ∃ s ∈ sels, selMatches e s = true := by
  intro sels
  induction sels with
  | nil =>
    intro doc h
    rcases h with ⟨s, hs, _⟩
    exact absurd hs (List.not_mem_nil s)
  | cons s0 rest ih =>
    intro doc h
    cases hfb : findBySel doc s0 with
    | some e =>
      refine ⟨e, by simp only [findChain, hfb], ?_, ?_, ?_⟩
      · rw [findBySel] at hfb
        exact List.mem_of_mem_filter (List.mem_of_find?_eq_some hfb)
      · rw [findBySel] at hfb
        exact List.find?_some hfb
      · rw [findBySel] at hfb
        have hm := (List.mem_filter.mp (List.mem_of_find?_eq_some hfb)).2
        exact ⟨s0, List.mem_cons_self s0 rest, hm⟩
    | none =>
      rcases h with ⟨s, hs, e, he, hm, hp⟩
      rcases List.mem_cons.mp hs with hseq | hsrest
      · exfalso
        rw [findBySel] at hfb
        have hin : e ∈ doc.filter (fun x => selMatches x s0) :=
          List.mem_filter.mpr ⟨he, by rw [← hseq]; exact hm⟩
        exact (List.find?_eq_none.mp hfb e hin) hp
      · rcases ih doc ⟨s, hsrest, e, he, hm, hp⟩ with
          ⟨e', he1, he2, he3, s', hs', hm'⟩
        refine ⟨e', ?_, he2, he3, ⟨s', List.mem_cons.mpr (Or.inr hs'), hm'⟩⟩
        simp only [findChain, hfb]
        exact he1

/-- C8: if no semantic (`data-testid`) price selector matches any element
of the document, while some element matched by a legacy class-name price
selector carries the currency symbol and a digit, price extraction still
succeeds through the ordered fallback chain, returning such a
legacy-matched candidate element. -/
theorem price_fallback_legacy (doc : List Element)
    (h1 : doc.all
      (fun e => semanticPriceSels.all (fun s => !(selMatches e s))) = true)
    (h2 : doc.any
      (fun e => priceOk e && legacyPriceSels.any (fun s => selMatches e s)) =
      true) :
    ∃ e, findPriceElement doc = some e ∧ priceOk e = true ∧
      ∃ s ∈ legacyPriceSels, selMatches e s = true := by
  have hsem : ∀ e ∈ doc, ∀ s ∈ semanticPriceSels, selMatches e s = false := by
    intro e he s hs
    have hx := List.all_eq_true.mp (List.all_eq_true.mp h1 e he) s hs
    simpa using hx
  rw [List.any_eq_true] at h2
  rcases h2 with ⟨e0, he0, hprop⟩
  rw [Bool.and_eq_true, List.any_eq_true] at hprop
  rcases hprop with ⟨hp0, s0, hs0, hm0⟩
  have hs0p : s0 ∈ priceSelectors := by
    simp only [legacyPriceSels, List.mem_cons, List.not_mem_nil, or_false] at hs0
    rcases hs0 with h | h | h <;> (rw [h]; decide)
  rcases findChain_yields priceSelectors doc ⟨s0, hs0p, e0, he0, hm0, hp0⟩ with
    ⟨e, hfc, hed, hpk, s, hsp, hms⟩
  refine ⟨e, ?_, hpk, ?_⟩
  · rw [findPriceElement, hfc]
  · simp only [priceSelectors, List.mem_cons, List.not_mem_nil, or_false] at hsp
    rcases hsp with h | h | h | h | h
    · exfalso
      have := hsem e hed s (by rw [h]; decide)
      rw [this] at hms
      cases hms
    · exact ⟨s, by rw [h]; decide, hms⟩
    · exact ⟨s, by rw [h]; decide, hms⟩
    · exact ⟨s, by rw [h]; decide, hms⟩
    · exfalso
      have := hsem e hed s (by rw [h]; decide)
      rw [this] at hms
      cases hms

/-- Witness for `price_fallback_legacy`: a one-element document matched
only by the legacy class selector `sDq_FX`. -/
theorem price_fallback_legacy_witness :
    (findPriceElement
      [⟨("span"), [(("class"), ("sDq_FX"))], ("€ 38,99")⟩]).isSome = true := by
  obtain ⟨e, he, _, _⟩ :=
    price_fallback_legacy [⟨("span"), [(("class"), ("sDq_FX"))], ("€ 38,99")⟩]
      (by decide) (by decide)
  rw [he]
  rfl
